import Mathlib

/-!
Verification of the version graph engine of `src/v2/js/versionControl.js`
(class `VersionControl`): branch table, text reconstruction by operation
replay, the fork-on-divergent-commit rule, and the navigation API
(undo / redo / switchToVersion), together with the persisted-state load
path `_loadHistoryAndPreferences`.

The embedding is shallow: the branch table (a JS object keyed by branch
id) becomes an association list `List (String × Branch)` whose update
`setB` replaces in place or appends, mirroring JS property assignment;
the mutable fields `_branches`, `_currentBranchId` and
`_currentTransactionIndex` become the record `VCState`; each method
becomes a state-passing function returning the new state (and the
boolean the method returns, where relevant).  Transaction log entries
(dynamically shaped arrays in JS) are modelled by the closed type
`LogEntry`: the three well-formed shapes the replay dispatch recognises
(`[index, string]`, `[index, count]`, `[index]`) plus a single
`malformed` constructor standing for every array shape the dispatch
rejects and skips.  Character indices are `Nat` (the recorded ops carry
non-negative character offsets) and transaction indices are `Int`
(`-1` denotes the pre-transaction snapshot).
-/

/-- A transaction log entry, as dispatched on by `_reconstructText`:
`ins` is the JS shape `[index, stringToAdd]`, `delRange` is
`[index, count]`, `delOne` is `[index]`, and `malformed` stands for any
entry the dispatch classifies as invalid or unknown and skips. -/
inductive LogEntry where
  | ins (index : Nat) (text : List Char)
  | delOne (index : Nat)
  | delRange (index : Nat) (count : Nat)
  | malformed
deriving DecidableEq

/-- A branch record, as created by `_createDefaultMainBranch`,
`_commitOperation` (fork path) and `createBranch`. -/
structure Branch where
  id : String
  parentBranchId : Option String
  parentTransactionIndex : Int
  initialContent : String
  transactions : List LogEntry
deriving DecidableEq

/-- The mutable engine state: `_branches`, `_currentBranchId`,
`_currentTransactionIndex`. -/
structure VCState where
  branches : List (String × Branch)
  currentBranchId : String
  currentTransactionIndex : Int
deriving DecidableEq

/-- Lookup of `this._branches[branchId]` in the association-list model. -/
def findBranch : List (String × Branch) → String → Option Branch
  | [], _ => none
  | (k, v) :: rest, bid => if k = bid then some v else findBranch rest bid

/-- JS property assignment `this._branches[k] = v`: replace the binding
in place when the key is present, append otherwise. -/
def setB : List (String × Branch) → String → Branch → List (String × Branch)
  | [], k, v => [(k, v)]
  | (k', v') :: rest, k, v =>
      if k' = k then (k, v) :: rest else (k', v') :: setB rest k v

/-- One step of the replay loop body of `_reconstructText`, acting on the
character buffer `textChars`.  `ins` is `splice(index, 0, ...text)`,
`delOne` is `splice(index, 1)`, `delRange` is `splice(index, count)`
(JS `splice` clamps a start beyond the end, as `List.take` / `List.drop`
do), and a malformed entry is skipped, leaving the buffer unchanged. -/
def applyEntry (s : List Char) : LogEntry → List Char
  | .ins i t => s.take i ++ t ++ s.drop i
  | .delOne i => s.take i ++ s.drop (i + 1)
  | .delRange i c => s.take i ++ s.drop (i + c)
  | .malformed => s

/-- `_reconstructText(branchId, targetTransactionIndex)`: returns `""`
for an unknown branch; returns `initialContent` at target `-1`;
otherwise replays the log entries at positions `0 ≤ i ≤ target` (and
`i < length`) over `initialContent`. -/
def reconstructText (branches : List (String × Branch)) (branchId : String)
    (targetTransactionIndex : Int) : String :=
  match findBranch branches branchId with
  | none => ""
  | some branch =>
      if targetTransactionIndex = -1 then branch.initialContent
      else String.mk ((branch.transactions.take
              (targetTransactionIndex + 1).toNat).foldl applyEntry
            branch.initialContent.toList)

/-- The root branch record built by `_createDefaultMainBranch`. -/
def defaultMainBranch : Branch :=
  { id := "main", parentBranchId := none, parentTransactionIndex := -1,
    initialContent := "", transactions := [] }

/-- `_createDefaultMainBranch()`: installs the root branch under key
`"main"` and points the cursor at `("main", -1)`. -/
def createDefaultMainBranch (s : VCState) : VCState :=
  { branches := setB s.branches "main" defaultMainBranch,
    currentBranchId := "main", currentTransactionIndex := -1 }

/-- The state the engine starts from when no history is persisted
(`init()` falling through to `_createDefaultMainBranch`). -/
def initState : VCState := createDefaultMainBranch ⟨[], "", -1⟩

/-- `_getOrCreateCurrentBranch()`: returns the current branch, or, when
the cursor names a missing branch, recovers to the tip of `main`
(creating a default `main` when even that is absent). -/
def getOrCreateCurrentBranch (s : VCState) : VCState × Branch :=
  match findBranch s.branches s.currentBranchId with
  | some b => (s, b)
  | none =>
      match findBranch s.branches "main" with
      | some mainBranch =>
          ({ s with currentBranchId := "main",
                    currentTransactionIndex :=
                      if 0 < mainBranch.transactions.length then
                        (mainBranch.transactions.length : Int) - 1
                      else -1 }, mainBranch)
      | none => (createDefaultMainBranch s, defaultMainBranch)

/-- The truncation step of `_commitOperation` (guarded by
`targetBranchObject === currentBranch && idx < transactions.length - 1`):
slices the log to `idx + 1` entries when the guard holds. -/
def truncateIfNeeded (idx : Int) (b : Branch) : Branch :=
  if idx < (b.transactions.length : Int) - 1 then
    { b with transactions := b.transactions.take (idx + 1).toNat }
  else b

/-- `targetBranchObject.transactions.push(opArray)`. -/
def pushOp (b : Branch) (op : LogEntry) : Branch :=
  { b with transactions := b.transactions ++ [op] }

/-- The at-tip path of `_commitOperation`: (vacuous) truncation check,
push onto the current branch, cursor to the new tip. -/
def commitAtTip (s1 : VCState) (cur : Branch) (op : LogEntry) : VCState :=
  { s1 with
    branches := setB s1.branches s1.currentBranchId
        (pushOp (truncateIfNeeded s1.currentTransactionIndex cur) op),
    currentTransactionIndex :=
      ((pushOp (truncateIfNeeded s1.currentTransactionIndex cur) op).transactions.length : Int) - 1 }

/-- The branch record built by the fork path of `_commitOperation`:
parent coordinate is the pre-commit cursor, `initialContent` is the text
reconstructed there, and the committed op is its first transaction
(the JS code first creates it with an empty log and then pushes). -/
def forkBranch (s1 : VCState) (op : LogEntry) (newBranchId : String) : Branch :=
  { id := newBranchId, parentBranchId := some s1.currentBranchId,
    parentTransactionIndex := s1.currentTransactionIndex,
    initialContent :=
      reconstructText s1.branches s1.currentBranchId s1.currentTransactionIndex,
    transactions := [op] }

/-- The fork path of `_commitOperation`: insert the new branch and move
the cursor to its tip (index `0`, after the push of the committed op). -/
def commitFork (s1 : VCState) (op : LogEntry) (newBranchId : String) : VCState :=
  { branches := setB s1.branches newBranchId (forkBranch s1 op newBranchId),
    currentBranchId := newBranchId, currentTransactionIndex := 0 }

/-- `_commitOperation(opArray, ...)`.  The generated branch id
(`branch-` + `_generateId()`, a timestamp/random token in JS) is passed
in as the parameter `newBranchId`. -/
def commitOperation (s : VCState) (op : LogEntry) (newBranchId : String) : VCState :=
  match getOrCreateCurrentBranch s with
  | (s1, cur) =>
      if s1.currentTransactionIndex = (cur.transactions.length : Int) - 1 then
        commitAtTip s1 cur op
      else commitFork s1 op newBranchId

/-- The at-tip path with the truncation step removed; used to state that
the truncation step of `_commitOperation` never executes. -/
def commitAtTipNoTruncate (s1 : VCState) (cur : Branch) (op : LogEntry) : VCState :=
  { s1 with
    branches := setB s1.branches s1.currentBranchId (pushOp cur op),
    currentTransactionIndex := ((pushOp cur op).transactions.length : Int) - 1 }

/-- `_commitOperation` with the truncation step removed. -/
def commitOperationNoTruncate (s : VCState) (op : LogEntry) (newBranchId : String) : VCState :=
  match getOrCreateCurrentBranch s with
  | (s1, cur) =>
      if s1.currentTransactionIndex = (cur.transactions.length : Int) - 1 then
        commitAtTipNoTruncate s1 cur op
      else commitFork s1 op newBranchId

/-- `undo()`: `false` when the current branch is missing or the cursor is
at `-1`; otherwise decrements the cursor, staying on the same branch. -/
def undo (s : VCState) : VCState × Bool :=
  match findBranch s.branches s.currentBranchId with
  | none => (s, false)
  | some _ =>
      if s.currentTransactionIndex = -1 then (s, false)
      else ({ s with currentTransactionIndex := s.currentTransactionIndex - 1 }, true)

/-- `redo()`: increments the cursor when it is strictly below the tip of
the current branch, otherwise `false`. -/
def redo (s : VCState) : VCState × Bool :=
  match findBranch s.branches s.currentBranchId with
  | none => (s, false)
  | some currentBranch =>
      if s.currentTransactionIndex < (currentBranch.transactions.length : Int) - 1 then
        ({ s with currentTransactionIndex := s.currentTransactionIndex + 1 }, true)
      else (s, false)

/-- `switchToVersion(branchId, transactionIndex)`, with the same nested
validation structure as the JS code: unknown branch fails; a call that
matches the current cursor returns `true` immediately; the bounds check
fails on `transactionIndex < -1` or `transactionIndex ≥ length`;
otherwise the cursor is repositioned. -/
def switchToVersion (s : VCState) (branchId : String) (transactionIndex : Int) :
    VCState × Bool :=
  match findBranch s.branches branchId with
  | none => (s, false)
  | some branch =>
      if s.currentBranchId = branchId ∧ s.currentTransactionIndex = transactionIndex then
        (s, true)
      else if (¬(-1 ≤ transactionIndex ∧
                  transactionIndex < (branch.transactions.length : Int))) ∧
              transactionIndex ≠ -1 then
        if transactionIndex = -1 ∧ branch.transactions.length = 0 then
          ({ s with currentBranchId := branchId,
                    currentTransactionIndex := transactionIndex }, true)
        else if transactionIndex < -1 ∨
                (branch.transactions.length : Int) ≤ transactionIndex then
          (s, false)
        else
          ({ s with currentBranchId := branchId,
                    currentTransactionIndex := transactionIndex }, true)
      else
        ({ s with currentBranchId := branchId,
                  currentTransactionIndex := transactionIndex }, true)

/-- `createBranch(branchName)`: fails on an empty or already-used name or
a missing current branch; otherwise installs a new branch forked from the
current cursor and moves the cursor to its `initialContent` state. -/
def createBranch (s : VCState) (branchName : String) : VCState × Bool :=
  if branchName = "" ∨ (findBranch s.branches branchName).isSome then (s, false)
  else
    match findBranch s.branches s.currentBranchId with
    | none => (s, false)
    | some _ =>
        ({ branches := setB s.branches branchName
              { id := branchName, parentBranchId := some s.currentBranchId,
                parentTransactionIndex := s.currentTransactionIndex,
                initialContent :=
                  reconstructText s.branches s.currentBranchId s.currentTransactionIndex,
                transactions := [] },
           currentBranchId := branchName, currentTransactionIndex := -1 }, true)

/-- Persisted user preferences (`loadUserPreferences()`):
`currentTransactionIndex` is `none` when the stored value is not a
number (the `typeof === number` check of the load path). -/
structure Prefs where
  currentBranchId : String
  currentTransactionIndex : Option Int
deriving DecidableEq

/-- `branch.transactions.length > 0 ? length - 1 : -1`, the tip index a
branch is reset to by the load path. -/
def branchTip (branch : Branch) : Int :=
  if 0 < branch.transactions.length then (branch.transactions.length : Int) - 1
  else -1

/-- The `else` arm of `_loadHistoryAndPreferences` (no usable prefs or
unknown branch): reinitialize a default `main` when `main` is absent,
otherwise point the cursor at `("main", -1)`. -/
def loadFallback (history : List (String × Branch)) : VCState :=
  match findBranch history "main" with
  | none => createDefaultMainBranch ⟨history, "", -1⟩
  | some _ => ⟨history, "main", -1⟩

/-- `_loadHistoryAndPreferences(history, prefs)` of
`src/v2/js/versionControl.js`: adopt the persisted cursor when it names a
known branch and a valid index; reset to that branch tip on an invalid
index; otherwise fall back to `main`. -/
def loadHistoryAndPreferences (history : List (String × Branch))
    (prefs : Option Prefs) : VCState :=
  match prefs with
  | some p =>
      match findBranch history p.currentBranchId with
      | some branch =>
          match p.currentTransactionIndex with
          | some i =>
              if -1 ≤ i ∧ i < (branch.transactions.length : Int) then
                ⟨history, p.currentBranchId, i⟩
              else ⟨history, p.currentBranchId, branchTip branch⟩
          | none => ⟨history, p.currentBranchId, branchTip branch⟩
      | none => loadFallback history
  | none => loadFallback history

/-- A well-formed operation of the specification data model (§3): the
three shapes an edit source may commit. -/
inductive Op where
  | insert (index : Nat) (text : List Char)
  | deleteOne (index : Nat)
  | deleteRange (index : Nat) (count : Nat)
deriving DecidableEq

/-- The log entry recorded for a well-formed operation. -/
def Op.toEntry : Op → LogEntry
  | .insert i t => .ins i t
  | .deleteOne i => .delOne i
  | .deleteRange i c => .delRange i c

/-- Modelled from the spec: the reference application of one operation
to an independent string (§4.1, §8 round-trip) — insert splices its text
in at its index, single delete removes one character at its index, range
delete removes `count` characters starting at its index. -/
def refApplyOp (s : String) : Op → String
  | .insert i t => String.mk (s.toList.take i ++ t ++ s.toList.drop i)
  | .deleteOne i => String.mk (s.toList.take i ++ s.toList.drop (i + 1))
  | .deleteRange i c => String.mk (s.toList.take i ++ s.toList.drop (i + c))

/-- Modelled from the spec: applying a sequence of operations in order to
an independent reference string. -/
def refApplyOps (s : String) (ops : List Op) : String := ops.foldl refApplyOp s

/-- Committing a list of operations one at a time (the generated branch
id is irrelevant while every commit lands at the tip). -/
def commitOps (s : VCState) (ops : List Op) : VCState :=
  ops.foldl (fun st o => commitOperation st o.toEntry "fork") s

/-- The shape of the engine state while all commits land on the tip of
the root branch: a table holding only `main` with the given log, cursor
at the tip. -/
def mainOnly (log : List LogEntry) : VCState :=
  ⟨[("main", { defaultMainBranch with transactions := log })], "main",
    (log.length : Int) - 1⟩

/-- The cursor invariant: the current branch exists and the cursor index
lies in `[-1, transactions.length - 1]`. -/
def StateValid (s : VCState) : Prop :=
  ∃ b, findBranch s.branches s.currentBranchId = some b ∧
    -1 ≤ s.currentTransactionIndex ∧
    s.currentTransactionIndex < (b.transactions.length : Int)

/-- States reachable from `initState` by the public operations named in
the navigation/commit API (the commit step carries the freshly generated
branch id, which `_generateId` guarantees not to collide). -/
inductive Reachable : VCState → Prop where
  | init : Reachable initState
  | commit (s : VCState) (op : LogEntry) (newBranchId : String) :
      Reachable s → findBranch s.branches newBranchId = none →
      Reachable (commitOperation s op newBranchId)
  | undoStep (s : VCState) : Reachable s → Reachable (undo s).1
  | redoStep (s : VCState) : Reachable s → Reachable (redo s).1
  | switchStep (s : VCState) (branchId : String) (transactionIndex : Int) :
      Reachable s → Reachable (switchToVersion s branchId transactionIndex).1

/-- One log is an extension of another: nothing removed, reordered or
replaced, only entries appended. -/
def ExtendsTo (l₁ l₂ : List LogEntry) : Prop := ∃ t, l₂ = l₁ ++ t

/-! ### Basic lemmas about the table and replay -/

theorem findBranch_setB_self (bt : List (String × Branch)) (k : String) (v : Branch) :
    findBranch (setB bt k v) k = some v := by
  induction bt with
  | nil => simp [setB, findBranch]
  | cons p rest ih =>
      obtain ⟨k', v'⟩ := p
      by_cases h : k' = k
      · simp [setB, h, findBranch]
      · simp [setB, h, findBranch, ih]

theorem findBranch_setB_ne (bt : List (String × Branch)) (k : String) (v : Branch)
    (k' : String) (h : k' ≠ k) : findBranch (setB bt k v) k' = findBranch bt k' := by
  induction bt with
  | nil =>
      simp only [setB, findBranch]
      rw [if_neg (fun hh => h hh.symm)]
  | cons p rest ih =>
      obtain ⟨k₀, v₀⟩ := p
      by_cases h0 : k₀ = k
      · subst h0
        simp only [setB, if_pos rfl, findBranch]
        rw [if_neg (fun hh => h hh.symm), if_neg (fun hh => h hh.symm)]
      · simp only [setB, if_neg h0, findBranch]
        by_cases h1 : k₀ = k'
        · rw [if_pos h1, if_pos h1]
        · rw [if_neg h1, if_neg h1, ih]

theorem reconstructText_congr (bt₁ bt₂ : List (String × Branch)) (bid : String)
    (h : findBranch bt₁ bid = findBranch bt₂ bid) (t : Int) :
    reconstructText bt₁ bid t = reconstructText bt₂ bid t := by
  unfold reconstructText
  rw [h]

theorem reconstructText_some (bt : List (String × Branch)) (bid : String) (b : Branch)
    (hb : findBranch bt bid = some b) (t : Int) :
    reconstructText bt bid t
      = if t = -1 then b.initialContent
        else String.mk ((b.transactions.take (t + 1).toNat).foldl applyEntry
            b.initialContent.toList) := by
  unfold reconstructText
  rw [hb]

theorem applyEntry_malformed (s : List Char) : applyEntry s .malformed = s := rfl

theorem foldl_applyEntry_malformed (pre post : List LogEntry) (s : List Char) :
    (pre ++ LogEntry.malformed :: post).foldl applyEntry s
      = (pre ++ post).foldl applyEntry s := by
  simp [List.foldl_append, List.foldl_cons, applyEntry_malformed]

theorem string_mk_toList (s : String) : String.mk s.toList = s := rfl

theorem undo_branches (s : VCState) : (undo s).1.branches = s.branches := by
  unfold undo
  rcases findBranch s.branches s.currentBranchId with _ | b
  · rfl
  · dsimp only
    split <;> rfl

theorem redo_branches (s : VCState) : (redo s).1.branches = s.branches := by
  unfold redo
  rcases findBranch s.branches s.currentBranchId with _ | b
  · rfl
  · dsimp only
    split <;> rfl

theorem switchToVersion_branches (s : VCState) (bid : String) (i : Int) :
    (switchToVersion s bid i).1.branches = s.branches := by
  unfold switchToVersion
  rcases findBranch s.branches bid with _ | b
  · rfl
  · dsimp only
    split
    · rfl
    · split
      · split
        · rfl
        · split <;> rfl
      · rfl

/-! ### C10: reconstruction on an unknown branch returns the empty string -/

/-- Claim C10: for every branch id that is not a key of the branch table
and every target index, `_reconstructText` does not fail: it returns the
empty string. -/
theorem c10_unknown_branch_empty (branches : List (String × Branch)) (branchId : String)
    (t : Int) (h : findBranch branches branchId = none) :
    reconstructText branches branchId t = "" := by
  unfold reconstructText
  rw [h]

/-- Witness for C10 at a concrete empty table. -/
theorem c10_unknown_branch_empty_witness :
    findBranch [] "ghost" = none ∧ reconstructText [] "ghost" 0 = "" :=
  ⟨rfl, c10_unknown_branch_empty [] "ghost" 0 rfl⟩

/-! ### C7: undo semantics -/

/-- Claim C7: `undo()` is a no-op returning `false` when the cursor index
is `-1`, and otherwise decrements the index by exactly one; in both cases
the current branch id is unchanged (undo never crosses to the parent
branch). Stated under the data-model invariant that the current branch
exists. -/
theorem c7_undo_semantics (s : VCState)
    (hb : (findBranch s.branches s.currentBranchId).isSome = true) :
    (s.currentTransactionIndex = -1 → undo s = (s, false)) ∧
    (s.currentTransactionIndex ≠ -1 →
      undo s = ({ s with currentTransactionIndex := s.currentTransactionIndex - 1 }, true)) ∧
    (undo s).1.currentBranchId = s.currentBranchId := by
  unfold undo
  rcases h : findBranch s.branches s.currentBranchId with _ | b
  · rw [h] at hb
    simp at hb
  · refine ⟨fun h1 => ?_, fun h1 => ?_, ?_⟩
    · simp [h1]
    · simp [h1]
    · dsimp only
      split <;> rfl

/-- Witness for C7: applied at the fresh initial state (index `-1`) and
at the state after one commit (index `0`). -/
theorem c7_undo_semantics_witness :
    undo initState = (initState, false) ∧
    (undo (commitOperation initState (LogEntry.ins 0 ['a']) "b1")).1.currentTransactionIndex = -1 := by
  constructor
  · exact (c7_undo_semantics initState rfl).1 rfl
  · rw [(c7_undo_semantics (commitOperation initState (LogEntry.ins 0 ['a']) "b1") rfl).2.1 (by decide)]
    decide

/-! ### C8: malformed log entries are skipped, replay is total -/

/-- Claim C8: replay is total (a Lean function by construction) and a
malformed log entry is skipped: replaying a log with a malformed entry
inserted, to its tip, yields the same text as replaying the log without
that entry to its tip. -/
theorem c8_malformed_skipped (bt : List (String × Branch)) (bid : String) (b : Branch)
    (pre post : List LogEntry) (hb : findBranch bt bid = some b)
    (ht : b.transactions = pre ++ LogEntry.malformed :: post) :
    reconstructText bt bid ((pre.length + post.length : Nat) : Int)
      = reconstructText (setB bt bid { b with transactions := pre ++ post }) bid
          (((pre.length + post.length : Nat) : Int) - 1) := by
  unfold reconstructText
  rw [hb, findBranch_setB_self]
  dsimp only
  have hN : ¬((pre.length + post.length : Nat) : Int) = -1 := by omega
  rw [if_neg hN]
  have htake : (b.transactions.take
      (((pre.length + post.length : Nat) : Int) + 1).toNat) = pre ++ LogEntry.malformed :: post := by
    rw [ht]
    have hlen : (pre ++ LogEntry.malformed :: post).length = pre.length + post.length + 1 := by
      simp
      omega
    have : (((pre.length + post.length : Nat) : Int) + 1).toNat
        = (pre ++ LogEntry.malformed :: post).length := by
      rw [hlen]
      omega
    rw [this, List.take_length]
  rw [htake]
  by_cases h0 : pre.length + post.length = 0
  · have hpre : pre = [] := by
      cases pre with
      | nil => rfl
      | cons a l => simp at h0
    have hpost : post = [] := by
      cases post with
      | nil => rfl
      | cons a l => simp at h0
    subst hpre hpost
    rw [if_pos (by omega)]
    rfl
  · rw [if_neg (by omega)]
    have htake2 : ((pre ++ post).take
        ((((pre.length + post.length : Nat) : Int) - 1) + 1).toNat) = pre ++ post := by
      have : ((((pre.length + post.length : Nat) : Int) - 1) + 1).toNat
          = (pre ++ post).length := by
        simp
        omega
      rw [this, List.take_length]
    rw [htake2, foldl_applyEntry_malformed]

/-- Witness for C8 at a concrete table holding a malformed entry between
two well-formed ones. -/
theorem c8_malformed_skipped_witness :
    reconstructText
        [("m", ⟨"m", none, -1, "", [.ins 0 ['a'], .malformed, .ins 1 ['b']]⟩)] "m" 2
      = reconstructText
          (setB [("m", ⟨"m", none, -1, "", [.ins 0 ['a'], .malformed, .ins 1 ['b']]⟩)] "m"
            ⟨"m", none, -1, "", [.ins 0 ['a'], .ins 1 ['b']]⟩) "m" 1 := by
  have h := c8_malformed_skipped
      [("m", ⟨"m", none, -1, "", [.ins 0 ['a'], .malformed, .ins 1 ['b']]⟩)] "m"
      ⟨"m", none, -1, "", [.ins 0 ['a'], .malformed, .ins 1 ['b']]⟩
      [.ins 0 ['a']] [.ins 1 ['b']] rfl rfl
  simpa using h

/-! ### Characterizations of `_commitOperation` -/

theorem getOrCreate_some (s : VCState) (b : Branch)
    (hb : findBranch s.branches s.currentBranchId = some b) :
    getOrCreateCurrentBranch s = (s, b) := by
  unfold getOrCreateCurrentBranch
  rw [hb]

theorem getOrCreate_main (s : VCState) (m : Branch)
    (h1 : findBranch s.branches s.currentBranchId = none)
    (hm : findBranch s.branches "main" = some m) :
    getOrCreateCurrentBranch s
      = ({ s with currentBranchId := "main",
                  currentTransactionIndex := (m.transactions.length : Int) - 1 }, m) := by
  unfold getOrCreateCurrentBranch
  rw [h1, hm]
  dsimp only
  congr 2
  split
  · rfl
  · omega

theorem getOrCreate_none (s : VCState)
    (h1 : findBranch s.branches s.currentBranchId = none)
    (hm : findBranch s.branches "main" = none) :
    getOrCreateCurrentBranch s = (createDefaultMainBranch s, defaultMainBranch) := by
  unfold getOrCreateCurrentBranch
  rw [h1, hm]

theorem commit_at_tip_eq (s : VCState) (b : Branch) (op : LogEntry) (nid : String)
    (hb : findBranch s.branches s.currentBranchId = some b)
    (htip : s.currentTransactionIndex = (b.transactions.length : Int) - 1) :
    commitOperation s op nid
      = { s with
          branches := setB s.branches s.currentBranchId
              { b with transactions := b.transactions ++ [op] },
          currentTransactionIndex := (b.transactions.length : Int) } := by
  unfold commitOperation
  rw [getOrCreate_some s b hb]
  dsimp only
  rw [if_pos htip]
  unfold commitAtTip truncateIfNeeded pushOp
  rw [if_neg (by omega)]
  congr 1
  simp

theorem commit_fork_eq (s : VCState) (b : Branch) (op : LogEntry) (nid : String)
    (hb : findBranch s.branches s.currentBranchId = some b)
    (hno : s.currentTransactionIndex ≠ (b.transactions.length : Int) - 1) :
    commitOperation s op nid = commitFork s op nid := by
  unfold commitOperation
  rw [getOrCreate_some s b hb]
  dsimp only
  rw [if_neg hno]

/-! ### C1: round trip of commits and reconstruction -/

theorem initState_eq_mainOnly : initState = mainOnly [] := by decide

theorem commitOperation_mainOnly (log : List LogEntry) (op : LogEntry) (nid : String) :
    commitOperation (mainOnly log) op nid = mainOnly (log ++ [op]) := by
  rw [commit_at_tip_eq (mainOnly log) { defaultMainBranch with transactions := log } op nid
      (by simp [mainOnly, findBranch]) rfl]
  unfold mainOnly
  simp [setB]

theorem commitOps_mainOnly (ops : List Op) : ∀ log : List LogEntry,
    commitOps (mainOnly log) ops = mainOnly (log ++ ops.map Op.toEntry) := by
  induction ops with
  | nil => intro log; simp [commitOps]
  | cons o rest ih =>
      intro log
      simp only [commitOps, List.foldl_cons]
      rw [commitOperation_mainOnly]
      have h := ih (log ++ [o.toEntry])
      simp only [commitOps] at h
      rw [h]
      simp

theorem refApplyOp_toList (s : String) (o : Op) :
    (refApplyOp s o).toList = applyEntry s.toList o.toEntry := by
  cases o <;> rfl

theorem refApplyOps_eq_foldl (ops : List Op) : ∀ s : String,
    refApplyOps s ops = String.mk ((ops.map Op.toEntry).foldl applyEntry s.toList) := by
  induction ops with
  | nil => intro s; exact (string_mk_toList s).symm
  | cons o rest ih =>
      intro s
      simp only [refApplyOps, List.foldl_cons, List.map_cons]
      have h := ih (refApplyOp s o)
      simp only [refApplyOps] at h
      rw [h, refApplyOp_toList]

/-- Claim C1: committing any sequence of well-formed operations one at a
time on the root branch from the fresh initial state and reconstructing
the root at index `N - 1` yields exactly the result of applying the same
operations in order to an independent reference string starting from
`""`; and for every branch, reconstructing at index `-1` yields that
branch `initialContent`. -/
theorem c1_round_trip :
    (∀ ops : List Op,
      reconstructText (commitOps initState ops).branches "main" ((ops.length : Int) - 1)
        = refApplyOps "" ops) ∧
    (∀ (branches : List (String × Branch)) (branchId : String) (b : Branch),
      findBranch branches branchId = some b →
      reconstructText branches branchId (-1) = b.initialContent) := by
  constructor
  · intro ops
    rw [initState_eq_mainOnly, commitOps_mainOnly ops []]
    simp only [List.nil_append]
    rw [reconstructText_some (mainOnly (ops.map Op.toEntry)).branches "main"
        { defaultMainBranch with transactions := ops.map Op.toEntry }
        (by simp [mainOnly, findBranch]) ((ops.length : Int) - 1)]
    cases ops with
    | nil => rfl
    | cons o rest =>
        rw [if_neg (show ¬(((o :: rest).length : Int) - 1 = -1) by
          simp only [List.length_cons]; omega)]
        have hTake : (((o :: rest).map Op.toEntry).take
            ((((o :: rest).length : Int) - 1) + 1).toNat) = (o :: rest).map Op.toEntry := by
          have h2 : ((((o :: rest).length : Int) - 1) + 1).toNat
              = ((o :: rest).map Op.toEntry).length := by
            simp only [List.length_map]
            omega
          rw [h2, List.take_length]
        show String.mk ((((o :: rest).map Op.toEntry).take
            ((((o :: rest).length : Int) - 1) + 1).toNat).foldl applyEntry
            defaultMainBranch.initialContent.toList) = refApplyOps "" (o :: rest)
        rw [hTake, refApplyOps_eq_foldl]
        rfl
  · intro branches branchId b hb
    rw [reconstructText_some branches branchId b hb (-1)]
    simp

/-- Witness for C1 at a concrete two-operation sequence and a concrete
table. -/
theorem c1_round_trip_witness :
    reconstructText (commitOps initState [Op.insert 0 ['a'], Op.insert 1 ['b']]).branches
        "main" 1 = refApplyOps "" [Op.insert 0 ['a'], Op.insert 1 ['b']] ∧
    reconstructText [("main", defaultMainBranch)] "main" (-1)
      = defaultMainBranch.initialContent := by
  constructor
  · have h := c1_round_trip.1 [Op.insert 0 ['a'], Op.insert 1 ['b']]
    simpa using h
  · exact c1_round_trip.2 [("main", defaultMainBranch)] "main" defaultMainBranch rfl

theorem commit_recover_main_eq (s : VCState) (m : Branch) (op : LogEntry) (nid : String)
    (h1 : findBranch s.branches s.currentBranchId = none)
    (hm : findBranch s.branches "main" = some m) :
    commitOperation s op nid
      = { branches := setB s.branches "main"
            { m with transactions := m.transactions ++ [op] },
          currentBranchId := "main",
          currentTransactionIndex := (m.transactions.length : Int) } := by
  unfold commitOperation
  rw [getOrCreate_main s m h1 hm]
  dsimp only
  rw [if_pos rfl]
  unfold commitAtTip truncateIfNeeded pushOp
  dsimp only
  rw [if_neg (show ¬((m.transactions.length : Int) - 1
      < (m.transactions.length : Int) - 1) by omega)]
  congr 1
  simp

theorem commit_recover_none_eq (s : VCState) (op : LogEntry) (nid : String)
    (h1 : findBranch s.branches s.currentBranchId = none)
    (hm : findBranch s.branches "main" = none) :
    commitOperation s op nid
      = { branches := setB (setB s.branches "main" defaultMainBranch) "main"
            { defaultMainBranch with transactions := [op] },
          currentBranchId := "main", currentTransactionIndex := 0 } := by
  unfold commitOperation
  rw [getOrCreate_none s h1 hm]
  rfl

/-! ### C2: the fork invariant -/

/-- Claim C2: a commit issued while the cursor is at a non-tip coordinate
`(bid, k)` with `k` strictly below the last transaction index creates a
new branch whose `initialContent` is the text reconstructed at `(bid, k)`,
whose parent coordinate is `(bid, k)`, and leaves the original branch
record — hence its reconstructed text at every index — unchanged. -/
theorem c2_fork_invariant (s : VCState) (b : Branch) (op : LogEntry) (newId : String)
    (hb : findBranch s.branches s.currentBranchId = some b)
    (hlo : -1 ≤ s.currentTransactionIndex)
    (hhi : s.currentTransactionIndex < (b.transactions.length : Int) - 1)
    (hfresh : findBranch s.branches newId = none) :
    findBranch (commitOperation s op newId).branches newId
        = some { id := newId, parentBranchId := some s.currentBranchId,
                 parentTransactionIndex := s.currentTransactionIndex,
                 initialContent :=
                   reconstructText s.branches s.currentBranchId s.currentTransactionIndex,
                 transactions := [op] } ∧
    findBranch (commitOperation s op newId).branches s.currentBranchId = some b ∧
    (∀ j : Int, reconstructText (commitOperation s op newId).branches s.currentBranchId j
        = reconstructText s.branches s.currentBranchId j) := by
  have hno : s.currentTransactionIndex ≠ (b.transactions.length : Int) - 1 := by omega
  have hne : s.currentBranchId ≠ newId := by
    intro h
    rw [h, hfresh] at hb
    cases hb
  rw [commit_fork_eq s b op newId hb hno]
  unfold commitFork forkBranch
  refine ⟨?_, ?_, ?_⟩
  · dsimp only
    rw [findBranch_setB_self]
  · dsimp only
    rw [findBranch_setB_ne _ _ _ _ hne, hb]
  · intro j
    exact reconstructText_congr _ _ _ (by rw [findBranch_setB_ne _ _ _ _ hne]) j

/-- Witness for C2 at a concrete state: root with two insertions, cursor
moved back to index 0, committing a single-character delete. -/
theorem c2_fork_invariant_witness :
    findBranch (commitOperation
        ⟨[("main", ⟨"main", none, -1, "", [.ins 0 ['a'], .ins 1 ['b']]⟩)], "main", 0⟩
        (LogEntry.delOne 0) "b1").branches "b1"
      = some ⟨"b1", some "main", 0, "a", [LogEntry.delOne 0]⟩ ∧
    findBranch (commitOperation
        ⟨[("main", ⟨"main", none, -1, "", [.ins 0 ['a'], .ins 1 ['b']]⟩)], "main", 0⟩
        (LogEntry.delOne 0) "b1").branches "main"
      = some ⟨"main", none, -1, "", [.ins 0 ['a'], .ins 1 ['b']]⟩ := by
  have h := c2_fork_invariant
      ⟨[("main", ⟨"main", none, -1, "", [.ins 0 ['a'], .ins 1 ['b']]⟩)], "main", 0⟩
      ⟨"main", none, -1, "", [.ins 0 ['a'], .ins 1 ['b']]⟩
      (LogEntry.delOne 0) "b1" (by decide) (by decide) (by decide) (by decide)
  refine ⟨?_, h.2.1⟩
  rw [h.1]
  decide

/-! ### C3: logs are append-only, the truncation step is dead code -/

theorem extendsTo_refl (l : List LogEntry) : ExtendsTo l l := ⟨[], by simp⟩

theorem extendsTo_append (l : List LogEntry) (t : List LogEntry) :
    ExtendsTo l (l ++ t) := ⟨t, rfl⟩

theorem commit_eq_noTruncate (s : VCState) (op : LogEntry) (nid : String) :
    commitOperation s op nid = commitOperationNoTruncate s op nid := by
  unfold commitOperation commitOperationNoTruncate
  rcases hg : getOrCreateCurrentBranch s with ⟨s1, cur⟩
  dsimp only
  split
  case isTrue h =>
    unfold commitAtTip commitAtTipNoTruncate truncateIfNeeded
    rw [if_neg (by omega)]
  case isFalse h => rfl

theorem commit_extends (s : VCState) (op : LogEntry) (newId : String)
    (hfresh : findBranch s.branches newId = none) (bid : String) (b : Branch)
    (hb : findBranch s.branches bid = some b) :
    ∃ b', findBranch (commitOperation s op newId).branches bid = some b' ∧
      ExtendsTo b.transactions b'.transactions := by
  rcases h1 : findBranch s.branches s.currentBranchId with _ | cur
  · rcases hm : findBranch s.branches "main" with _ | m
    · rw [commit_recover_none_eq s op newId h1 hm]
      have hbid : bid ≠ "main" := by
        intro h
        rw [h, hm] at hb
        cases hb
      refine ⟨b, ?_, extendsTo_refl _⟩
      dsimp only
      rw [findBranch_setB_ne _ _ _ _ hbid, findBranch_setB_ne _ _ _ _ hbid, hb]
    · rw [commit_recover_main_eq s m op newId h1 hm]
      by_cases hbid : bid = "main"
      · subst hbid
        have hbm : b = m := by
          rw [hm] at hb
          exact Option.some.inj hb.symm
        subst hbm
        refine ⟨{ b with transactions := b.transactions ++ [op] }, ?_, extendsTo_append _ _⟩
        dsimp only
        rw [findBranch_setB_self]
      · refine ⟨b, ?_, extendsTo_refl _⟩
        dsimp only
        rw [findBranch_setB_ne _ _ _ _ hbid, hb]
  · by_cases htip : s.currentTransactionIndex = (cur.transactions.length : Int) - 1
    · rw [commit_at_tip_eq s cur op newId h1 htip]
      by_cases hbid : bid = s.currentBranchId
      · subst hbid
        have hbc : b = cur := by
          rw [h1] at hb
          exact Option.some.inj hb.symm
        subst hbc
        refine ⟨{ b with transactions := b.transactions ++ [op] }, ?_, extendsTo_append _ _⟩
        dsimp only
        rw [findBranch_setB_self]
      · refine ⟨b, ?_, extendsTo_refl _⟩
        dsimp only
        rw [findBranch_setB_ne _ _ _ _ hbid, hb]
    · rw [commit_fork_eq s cur op newId h1 htip]
      have hbid : bid ≠ newId := by
        intro h
        rw [h, hfresh] at hb
        cases hb
      refine ⟨b, ?_, extendsTo_refl _⟩
      unfold commitFork
      dsimp only
      rw [findBranch_setB_ne _ _ _ _ hbid, hb]

theorem createBranch_preserves (s : VCState) (name : String) (bid : String) (b : Branch)
    (hb : findBranch s.branches bid = some b) :
    findBranch (createBranch s name).1.branches bid = some b := by
  unfold createBranch
  split
  · exact hb
  case isFalse h =>
    rcases hc : findBranch s.branches s.currentBranchId with _ | cur
    · exact hb
    · dsimp only
      have hname : bid ≠ name := by
        intro he
        subst he
        exact h (Or.inr (by rw [hb]; rfl))
      rw [findBranch_setB_ne _ _ _ _ hname, hb]

/-- Claim C3: for every existing branch and every public operation
(commit, undo, redo, switchToVersion, explicit branch creation), the
branch transaction list after the operation is an extension of the list
before it; and the truncation step inside `_commitOperation` is never
executed — the function equals its truncation-free variant on every
state. The commit case assumes the generated branch id is fresh, which
the id generator is required to guarantee (spec §4.2.3a, §7). -/
theorem c3_append_only :
    (∀ (s : VCState) (op : LogEntry) (newId : String),
        findBranch s.branches newId = none →
        ∀ (bid : String) (b : Branch), findBranch s.branches bid = some b →
        ∃ b', findBranch (commitOperation s op newId).branches bid = some b' ∧
          ExtendsTo b.transactions b'.transactions) ∧
    (∀ (s : VCState) (bid : String) (b : Branch), findBranch s.branches bid = some b →
        ∃ b', findBranch (undo s).1.branches bid = some b' ∧
          ExtendsTo b.transactions b'.transactions) ∧
    (∀ (s : VCState) (bid : String) (b : Branch), findBranch s.branches bid = some b →
        ∃ b', findBranch (redo s).1.branches bid = some b' ∧
          ExtendsTo b.transactions b'.transactions) ∧
    (∀ (s : VCState) (target : String) (i : Int) (bid : String) (b : Branch),
        findBranch s.branches bid = some b →
        ∃ b', findBranch (switchToVersion s target i).1.branches bid = some b' ∧
          ExtendsTo b.transactions b'.transactions) ∧
    (∀ (s : VCState) (name : String) (bid : String) (b : Branch),
        findBranch s.branches bid = some b →
        ∃ b', findBranch (createBranch s name).1.branches bid = some b' ∧
          ExtendsTo b.transactions b'.transactions) ∧
    (∀ (s : VCState) (op : LogEntry) (newId : String),
        commitOperation s op newId = commitOperationNoTruncate s op newId) := by
  refine ⟨commit_extends, ?_, ?_, ?_, ?_, commit_eq_noTruncate⟩
  · intro s bid b hb
    exact ⟨b, by rw [undo_branches]; exact hb, extendsTo_refl _⟩
  · intro s bid b hb
    exact ⟨b, by rw [redo_branches]; exact hb, extendsTo_refl _⟩
  · intro s target i bid b hb
    exact ⟨b, by rw [switchToVersion_branches]; exact hb, extendsTo_refl _⟩
  · intro s name bid b hb
    exact ⟨b, createBranch_preserves s name bid b hb, extendsTo_refl _⟩

/-- Witness for C3: the commit component applied at the fresh initial
state, and the no-truncation equality at the same concrete input. -/
theorem c3_append_only_witness :
    (∃ b', findBranch (commitOperation initState (LogEntry.ins 0 ['a']) "b1").branches "main"
        = some b' ∧ ExtendsTo defaultMainBranch.transactions b'.transactions) ∧
    commitOperation initState (LogEntry.ins 0 ['a']) "b1"
      = commitOperationNoTruncate initState (LogEntry.ins 0 ['a']) "b1" :=
  ⟨c3_append_only.1 initState (LogEntry.ins 0 ['a']) "b1" (by decide) "main"
      defaultMainBranch (by decide),
   c3_append_only.2.2.2.2.2 initState (LogEntry.ins 0 ['a']) "b1"⟩

/-! ### C9: the cursor invariant on reachable states -/

theorem valid_init : StateValid initState :=
  ⟨defaultMainBranch, by decide, by decide, by decide⟩

theorem commit_valid (s : VCState) (op : LogEntry) (nid : String) :
    StateValid (commitOperation s op nid) := by
  rcases h1 : findBranch s.branches s.currentBranchId with _ | cur
  · rcases hm : findBranch s.branches "main" with _ | m
    · rw [commit_recover_none_eq s op nid h1 hm]
      exact ⟨{ defaultMainBranch with transactions := [op] },
        by dsimp only; rw [findBranch_setB_self], by simp, by simp⟩
    · rw [commit_recover_main_eq s m op nid h1 hm]
      refine ⟨{ m with transactions := m.transactions ++ [op] },
        by dsimp only; rw [findBranch_setB_self], by dsimp only; omega, ?_⟩
      dsimp only
      simp only [List.length_append, List.length_cons, List.length_nil]
      omega
  · by_cases htip : s.currentTransactionIndex = (cur.transactions.length : Int) - 1
    · rw [commit_at_tip_eq s cur op nid h1 htip]
      refine ⟨{ cur with transactions := cur.transactions ++ [op] },
        by dsimp only; rw [findBranch_setB_self], by dsimp only; omega, ?_⟩
      dsimp only
      simp only [List.length_append, List.length_cons, List.length_nil]
      omega
    · rw [commit_fork_eq s cur op nid h1 htip]
      refine ⟨forkBranch s op nid, ?_, ?_, ?_⟩
      · unfold commitFork
        dsimp only
        rw [findBranch_setB_self]
      · unfold commitFork
        dsimp only
        omega
      · unfold commitFork forkBranch
        dsimp only
        simp

theorem undo_valid (s : VCState) (h : StateValid s) : StateValid (undo s).1 := by
  obtain ⟨b, hb, hlo, hhi⟩ := h
  unfold undo
  rw [hb]
  dsimp only
  split
  · exact ⟨b, hb, hlo, hhi⟩
  case isFalse hne =>
    refine ⟨b, hb, ?_, ?_⟩ <;> (dsimp only; omega)

theorem redo_valid (s : VCState) (h : StateValid s) : StateValid (redo s).1 := by
  obtain ⟨b, hb, hlo, hhi⟩ := h
  unfold redo
  rw [hb]
  dsimp only
  split
  case isTrue hlt =>
    refine ⟨b, hb, ?_, ?_⟩ <;> (dsimp only; omega)
  case isFalse hge => exact ⟨b, hb, hlo, hhi⟩

theorem switch_valid (s : VCState) (bid : String) (i : Int) (h : StateValid s) :
    StateValid (switchToVersion s bid i).1 := by
  obtain ⟨b0, hb0, hlo, hhi⟩ := h
  unfold switchToVersion
  rcases hb : findBranch s.branches bid with _ | br
  · exact ⟨b0, hb0, hlo, hhi⟩
  · dsimp only
    split
    · exact ⟨b0, hb0, hlo, hhi⟩
    case isFalse hcur =>
      split
      case isTrue hguard =>
        split
        case isTrue hcase =>
          obtain ⟨hi, hlen⟩ := hcase
          refine ⟨br, hb, ?_, ?_⟩ <;> (dsimp only; omega)
        case isFalse hcase =>
          split
          case isTrue hfail => exact ⟨b0, hb0, hlo, hhi⟩
          case isFalse hok =>
            have hbound : -1 ≤ i ∧ i < (br.transactions.length : Int) := by
              constructor <;> omega
            exact ⟨br, hb, hbound.1, hbound.2⟩
      case isFalse hguard =>
        have hbound : (-1 ≤ i ∧ i < (br.transactions.length : Int)) ∨ i = -1 := by
          tauto
        rcases hbound with hB | hB
        · exact ⟨br, hb, hB.1, hB.2⟩
        · subst hB
          refine ⟨br, hb, ?_, ?_⟩ <;> (dsimp only; omega)

/-- Claim C9: in every state reachable from the initial state by commit,
undo, redo and switchToVersion, the cursor names an existing branch and
its transaction index lies in `[-1, transactions.length - 1]`. -/
theorem c9_cursor_invariant (s : VCState) (h : Reachable s) : StateValid s := by
  induction h with
  | init => exact valid_init
  | commit s op nid _ _ _ => exact commit_valid s op nid
  | undoStep s _ ih => exact undo_valid s ih
  | redoStep s _ ih => exact redo_valid s ih
  | switchStep s bid i _ ih => exact switch_valid s bid i ih

/-- Witness for C9 at the initial state. -/
theorem c9_cursor_invariant_witness : StateValid initState :=
  c9_cursor_invariant initState Reachable.init

/-! ### C5: undo followed by redo -/

/-- Counterexample to C5 as stated: at the valid coordinate
`("main", -1)` on a root branch holding one transaction, `undo()` is a
no-op and `redo()` then advances the cursor to index `0`, so
undo-then-redo does not return the cursor to `-1`. -/
theorem c5_counterexample :
    (redo (undo (⟨[("main", ⟨"main", none, -1, "", [LogEntry.ins 0 ['a']]⟩)],
        "main", -1⟩ : VCState)).1).1.currentTransactionIndex = 0 ∧
    ¬(redo (undo (⟨[("main", ⟨"main", none, -1, "", [LogEntry.ins 0 ['a']]⟩)],
        "main", -1⟩ : VCState)).1).1.currentTransactionIndex
      = (⟨[("main", ⟨"main", none, -1, "", [LogEntry.ins 0 ['a']]⟩)],
        "main", -1⟩ : VCState).currentTransactionIndex := by
  decide

/-- Claim C5 (amended): on every state whose cursor is valid, if the
cursor index is at least `0` — or is `-1` on a branch with no
transactions — then `undo()` followed by `redo()` restores the entire
state, in particular the cursor coordinate and the reconstructed text.
(At index `-1` on a branch with transactions, undo is a no-op and redo
advances the cursor to `0`, as the counterexample shows.) -/
theorem c5_undo_redo_inverse (s : VCState) (b : Branch)
    (hb : findBranch s.branches s.currentBranchId = some b)
    (hlo : -1 ≤ s.currentTransactionIndex)
    (hhi : s.currentTransactionIndex < (b.transactions.length : Int))
    (h0 : 0 ≤ s.currentTransactionIndex ∨ b.transactions = []) :
    (redo (undo s).1).1 = s ∧
    reconstructText (redo (undo s).1).1.branches (redo (undo s).1).1.currentBranchId
        (redo (undo s).1).1.currentTransactionIndex
      = reconstructText s.branches s.currentBranchId s.currentTransactionIndex := by
  have hmain : (redo (undo s).1).1 = s := by
    rcases h0 with hpos | hempty
    · have hne : ¬(s.currentTransactionIndex = -1) := by omega
      have hu : (undo s).1
          = { s with currentTransactionIndex := s.currentTransactionIndex - 1 } := by
        unfold undo
        rw [hb]
        dsimp only
        rw [if_neg hne]
      rw [hu]
      unfold redo
      rw [show findBranch ({ s with currentTransactionIndex :=
            s.currentTransactionIndex - 1 } : VCState).branches
          ({ s with currentTransactionIndex :=
            s.currentTransactionIndex - 1 } : VCState).currentBranchId = some b from hb]
      dsimp only
      rw [if_pos (show ({ s with currentTransactionIndex :=
            s.currentTransactionIndex - 1 } : VCState).currentTransactionIndex
          < (b.transactions.length : Int) - 1 by dsimp only; omega)]
      dsimp only
      have harith : s.currentTransactionIndex - 1 + 1 = s.currentTransactionIndex := by
        omega
      rw [harith]
    · have hidx : s.currentTransactionIndex = -1 := by
        rw [hempty] at hhi
        simp at hhi
        omega
      have hu : (undo s).1 = s := by
        unfold undo
        rw [hb]
        dsimp only
        rw [if_pos hidx]
      rw [hu]
      unfold redo
      rw [hb]
      dsimp only
      rw [if_neg (show ¬(s.currentTransactionIndex
          < (b.transactions.length : Int) - 1) by rw [hempty]; simp; omega)]
  exact ⟨hmain, by rw [hmain]⟩

/-- Witness for the amended C5 at a concrete state: root with one
transaction, cursor at index `0`. -/
theorem c5_undo_redo_inverse_witness :
    (redo (undo (⟨[("main", ⟨"main", none, -1, "", [LogEntry.ins 0 ['a']]⟩)],
        "main", 0⟩ : VCState)).1).1
      = (⟨[("main", ⟨"main", none, -1, "", [LogEntry.ins 0 ['a']]⟩)],
        "main", 0⟩ : VCState) :=
  (c5_undo_redo_inverse
    ⟨[("main", ⟨"main", none, -1, "", [LogEntry.ins 0 ['a']]⟩)], "main", 0⟩
    ⟨"main", none, -1, "", [LogEntry.ins 0 ['a']]⟩
    (by decide) (by decide) (by decide) (Or.inl (by decide))).1

/-! ### C6: switchToVersion validation -/

/-- Claim C6: on every state satisfying the cursor invariant,
`switchToVersion(branchId, index)` fails — reporting `false` and leaving
the whole state unchanged — whenever `branchId` is unknown or `index`
lies outside `[-1, transactions.length - 1]` (in particular at
`index = length` and `index = -2`); and on success it returns `true`,
repositions the cursor to `(branchId, index)` and leaves the branch
table — hence every branch record — unchanged. -/
theorem c6_switch_validation (s : VCState) (hs : StateValid s) (bid : String) (i : Int) :
    (findBranch s.branches bid = none → switchToVersion s bid i = (s, false)) ∧
    (∀ b, findBranch s.branches bid = some b →
        (i < -1 ∨ (b.transactions.length : Int) ≤ i) →
        switchToVersion s bid i = (s, false)) ∧
    (∀ b, findBranch s.branches bid = some b →
        -1 ≤ i → i < (b.transactions.length : Int) →
        (switchToVersion s bid i).2 = true ∧
        (switchToVersion s bid i).1.branches = s.branches ∧
        (switchToVersion s bid i).1.currentBranchId = bid ∧
        (switchToVersion s bid i).1.currentTransactionIndex = i) := by
  refine ⟨?_, ?_, ?_⟩
  · intro h
    unfold switchToVersion
    rw [h]
  · intro b hb hout
    obtain ⟨b0, hb0, hlo0, hhi0⟩ := hs
    unfold switchToVersion
    rw [hb]
    dsimp only
    have hguard1 : ¬(s.currentBranchId = bid ∧ s.currentTransactionIndex = i) := by
      rintro ⟨h1, h2⟩
      rw [h1] at hb0
      have hbe : b0 = b := Option.some.inj (hb0.symm.trans hb)
      subst hbe
      omega
    rw [if_neg hguard1]
    have hA : (¬(-1 ≤ i ∧ i < (b.transactions.length : Int))) ∧ i ≠ -1 := by
      constructor
      · rintro ⟨h1, h2⟩
        omega
      · intro h
        subst h
        omega
    rw [if_pos hA]
    rw [if_neg (show ¬(i = -1 ∧ b.transactions.length = 0) from
        fun hc => hA.2 hc.1)]
    rw [if_pos hout]
  · intro b hb h1 h2
    unfold switchToVersion
    rw [hb]
    dsimp only
    by_cases hcur : s.currentBranchId = bid ∧ s.currentTransactionIndex = i
    · rw [if_pos hcur]
      exact ⟨rfl, rfl, hcur.1, hcur.2⟩
    · rw [if_neg hcur]
      rw [if_neg (show ¬((¬(-1 ≤ i ∧ i < (b.transactions.length : Int))) ∧ i ≠ -1)
          from fun hc => hc.1 ⟨h1, h2⟩)]
      exact ⟨rfl, rfl, rfl, rfl⟩

/-- Witness for C6 at the fresh initial state: an unknown branch fails,
index `0 = length` fails, and index `-1` succeeds. -/
theorem c6_switch_validation_witness :
    switchToVersion initState "ghost" 5 = (initState, false) ∧
    switchToVersion initState "main" 0 = (initState, false) ∧
    (switchToVersion initState "main" (-1)).2 = true := by
  have hv : StateValid initState := ⟨defaultMainBranch, by decide, by decide, by decide⟩
  refine ⟨(c6_switch_validation initState hv "ghost" 5).1 (by decide),
    (c6_switch_validation initState hv "main" 0).2.1 defaultMainBranch (by decide)
      (Or.inr (by decide)),
    ((c6_switch_validation initState hv "main" (-1)).2.2 defaultMainBranch (by decide)
      (by decide) (by decide)).1⟩

/-! ### C4: the persisted-state load path -/

/-- Counterexample to C4 as stated: loading a table that contains no root
branch, with a persisted pointer naming the known branch `"b"` at the
out-of-range index `5`, leaves the pointer on `"b"` (at its tip, `-1`)
and reinitializes no root branch — contrary to the claim that a missing
root is always reinitialized and that an out-of-range index falls back
to the root branch tip. -/
theorem c4_counterexample :
    findBranch (loadHistoryAndPreferences [("b", ⟨"b", some "main", 0, "x", []⟩)]
        (some ⟨"b", some 5⟩)).branches "main" = none ∧
    (loadHistoryAndPreferences [("b", ⟨"b", some "main", 0, "x", []⟩)]
        (some ⟨"b", some 5⟩)).currentBranchId = "b" ∧
    (loadHistoryAndPreferences [("b", ⟨"b", some "main", 0, "x", []⟩)]
        (some ⟨"b", some 5⟩)).currentTransactionIndex = -1 := by
  decide

/-- Claim C4 (amended): when loading persisted state, if the persisted
pointer names a known branch with an out-of-range or non-numeric index,
the pointer is reset to that branch tip (its last transaction index, or
`-1` when it has no transactions); if the pointer is absent or names an
unknown branch, then a fresh empty root is reinitialized when no root
branch is present, and otherwise the pointer is set to the root branch at
index `-1`.  Loading never crashes: it is a total function of its
inputs. -/
theorem c4_load_fallback (history : List (String × Branch)) (p : Prefs) :
    (∀ b, findBranch history p.currentBranchId = some b →
      (∀ i, p.currentTransactionIndex = some i →
        ¬(-1 ≤ i ∧ i < (b.transactions.length : Int)) →
        loadHistoryAndPreferences history (some p)
          = ⟨history, p.currentBranchId, branchTip b⟩) ∧
      (p.currentTransactionIndex = none →
        loadHistoryAndPreferences history (some p)
          = ⟨history, p.currentBranchId, branchTip b⟩)) ∧
    (findBranch history p.currentBranchId = none →
      (∀ m, findBranch history "main" = some m →
        loadHistoryAndPreferences history (some p) = ⟨history, "main", -1⟩) ∧
      (findBranch history "main" = none →
        loadHistoryAndPreferences history (some p)
            = createDefaultMainBranch ⟨history, "", -1⟩ ∧
        findBranch (loadHistoryAndPreferences history (some p)).branches "main"
            = some defaultMainBranch)) ∧
    ((∀ m, findBranch history "main" = some m →
        loadHistoryAndPreferences history none = ⟨history, "main", -1⟩) ∧
     (findBranch history "main" = none →
        loadHistoryAndPreferences history none
          = createDefaultMainBranch ⟨history, "", -1⟩)) := by
  refine ⟨?_, ?_, ?_, ?_⟩
  · intro b hb
    constructor
    · intro i hi hrange
      unfold loadHistoryAndPreferences
      dsimp only
      rw [hb, hi]
      dsimp only
      rw [if_neg hrange]
    · intro hnone
      unfold loadHistoryAndPreferences
      dsimp only
      rw [hb, hnone]
  · intro hnb
    constructor
    · intro m hm
      unfold loadHistoryAndPreferences loadFallback
      dsimp only
      rw [hnb, hm]
    · intro hm
      have hload : loadHistoryAndPreferences history (some p)
          = createDefaultMainBranch ⟨history, "", -1⟩ := by
        unfold loadHistoryAndPreferences loadFallback
        dsimp only
        rw [hnb, hm]
      refine ⟨hload, ?_⟩
      rw [hload]
      unfold createDefaultMainBranch
      dsimp only
      rw [findBranch_setB_self]
  · intro m hm
    unfold loadHistoryAndPreferences loadFallback
    dsimp only
    rw [hm]
  · intro hm
    unfold loadHistoryAndPreferences loadFallback
    dsimp only
    rw [hm]

/-- Witness for the amended C4: out-of-range index on a known branch
resets to that branch tip, and an unknown pointer with no root
reinitializes a fresh root. -/
theorem c4_load_fallback_witness :
    loadHistoryAndPreferences [("b", ⟨"b", some "main", 0, "x", []⟩)]
        (some ⟨"b", some 5⟩)
      = ⟨[("b", ⟨"b", some "main", 0, "x", []⟩)], "b",
          branchTip ⟨"b", some "main", 0, "x", []⟩⟩ ∧
    findBranch (loadHistoryAndPreferences [("b", ⟨"b", some "main", 0, "x", []⟩)]
        (some ⟨"ghost", some 0⟩)).branches "main" = some defaultMainBranch := by
  refine ⟨((c4_load_fallback [("b", ⟨"b", some "main", 0, "x", []⟩)]
      ⟨"b", some 5⟩).1 ⟨"b", some "main", 0, "x", []⟩ (by decide)).1 5 rfl (by decide),
    (((c4_load_fallback [("b", ⟨"b", some "main", 0, "x", []⟩)]
      ⟨"ghost", some 0⟩).2.1 (by decide)).2 (by decide)).2⟩
